import Mathlib

/-!
Verification development for the `brightspark` CSV ranking tool
(`cli_tool.py`).  The program is a three step pipeline: `read_csv` parses and
validates delimited rows, `get_top_records` sorts them by a composite key and
truncates, and `format_to_yaml` / `format_to_json` render the result.

The Python functions are embedded shallowly: Python `int` values become `Int`,
Python `sorted` (a stable sort by the key `(x["division"], -x["points"])`) is
embedded as insertion sort over the corresponding non-strict lexicographic
order, which is exactly a stable sort for that key, and Python slicing
`l[:top_n]` keeps its signed semantics.
-/

/-- A record as built by `read_csv` in `cli_tool.py` (lines 57-66): the row
cells for `firstname`, `lastname` and `summary` are stored as found in the
row dictionary, where `csv.DictReader` fills cells missing from a short row
with its default `restval`, i.e. Python `None`; hence those fields are
`Option String`.  The `date` field is always a string, because the record is
only built after `datetime.strptime(row["date"], "%Y-%m-%d")` succeeded, which
requires a string.  `division` and `points` hold the parsed integers. -/
structure Record where
  firstname : Option String
  lastname : Option String
  date : String
  division : Int
  points : Int
  summary : Option String
deriving DecidableEq

/-- The Python sort key of `get_top_records` (line 91):
`lambda x: (x["division"], -x["points"])`. -/
def sortKey (r : Record) : Int × Int :=
  (r.division, -r.points)

/-- Non-strict lexicographic comparison of the Python sort key tuples:
`(a.division, -a.points) <= (b.division, -b.points)`.  Python `sorted` is a
stable sort with respect to exactly this total preorder. -/
def keyLe (a b : Record) : Prop :=
  a.division < b.division ∨ (a.division = b.division ∧ -a.points ≤ -b.points)

/-- The ordering in the words of the spec: ascending by `division`, then
descending by `points` within equal division.  Kept separate from `keyLe`
(which is read off the code) so the two can be compared. -/
def specLe (a b : Record) : Prop :=
  a.division < b.division ∨ (a.division = b.division ∧ b.points ≤ a.points)

instance : DecidableRel keyLe := fun _ _ =>
  inferInstanceAs (Decidable (_ ∨ _))

instance : IsTotal Record keyLe :=
  ⟨fun a b => by unfold keyLe; omega⟩

instance : IsTrans Record keyLe :=
  ⟨fun a b c hab hbc => by unfold keyLe at hab hbc ⊢; omega⟩

/-- Python list slicing `l[:n]` with its signed semantics: for `0 <= n` it
takes the first `n` elements; for `n < 0` it takes `len(l) + n` elements
(clamped at zero), i.e. it drops the last `|n|` elements. -/
def pySliceTo {α : Type} (l : List α) (n : Int) : List α :=
  if 0 ≤ n then l.take n.toNat else l.take (l.length - (-n).toNat)

/-- Embedding of `get_top_records` (lines 79-92):
`sorted(records, key=lambda x: (x["division"], -x["points"]))[:top_n]`.
Python `sorted` is a stable sort by the key, embedded as insertion sort over
`keyLe`. -/
def get_top_records (records : List Record) (top_n : Int) : List Record :=
  pySliceTo (List.insertionSort keyLe records) top_n

/-- The records of `l` whose sort key equals `k`, in their order in `l`.
Stability of the ranking is expressed through this subsequence. -/
def keyFilter (k : Int × Int) (l : List Record) : List Record :=
  l.filter (fun r => decide (sortKey r = k))

/-- First sample record of the repository test suite (`test_cli_tool.py`). -/
def johnDoe : Record :=
  ⟨some "John", some "Doe", "2023-05-05", 1, 90, some "Task A"⟩

/-- Second sample record of the repository test suite. -/
def janeSmith : Record :=
  ⟨some "Jane", some "Smith", "2023-06-06", 2, 85, some "Task B"⟩

/-- Third sample record of the repository test suite. -/
def alexJohnson : Record :=
  ⟨some "Alex", some "Johnson", "2023-07-07", 1, 80, some "Task C"⟩

/-- Fourth sample record of the repository test suite. -/
def taylorBrown : Record :=
  ⟨some "Taylor", some "Brown", "2023-08-08", 2, 70, some "Task D"⟩

/-- The sample input `[(div=1,pts=90),(div=2,pts=85),(div=1,pts=80),(div=2,pts=70)]`
used by the spec scenario and the test suite. -/
def sampleRecords : List Record :=
  [johnDoe, janeSmith, alexJohnson, taylorBrown]

/-! Python value parsing primitives used by `read_csv`. -/

/-- Digit run of a Python integer literal after the optional sign: one or
more ASCII digits, with single underscores allowed between digits. -/
def digitsOk : List Char → Bool
  | [] => false
  | [c] => c.isDigit
  | c :: '_' :: rest => c.isDigit && digitsOk rest
  | c :: rest => c.isDigit && digitsOk rest

/-- Numeric value of a digit run, ignoring the underscore separators. -/
def digitsVal (cs : List Char) : Nat :=
  (cs.filter (fun c => c != '_')).foldl (fun n c => 10 * n + (c.toNat - 48)) 0

/-- Python `int(...)` strips surrounding whitespace before parsing. -/
def pyStrip (s : String) : List Char :=
  ((s.toList.dropWhile Char.isWhitespace).reverse.dropWhile Char.isWhitespace).reverse

/-- Embedding of Python `int(s)` on a string argument: optional surrounding
whitespace, an optional sign, then a digit run; `none` models `ValueError`.
(Non-ASCII unicode digits accepted by Python are not modelled.) -/
def pyParseInt (s : String) : Option Int :=
  match pyStrip s with
  | '+' :: rest => if digitsOk rest then some (digitsVal rest : Int) else none
  | '-' :: rest => if digitsOk rest then some (-(digitsVal rest : Int)) else none
  | rest => if digitsOk rest then some (digitsVal rest : Int) else none

/-- Gregorian leap year rule, as used by `datetime.date`. -/
def isLeapYear (y : Nat) : Bool :=
  y % 4 == 0 && (y % 100 != 0 || y % 400 == 0)

/-- Length of a month, as validated by `datetime.date`. -/
def daysInMonth (y m : Nat) : Nat :=
  if m = 2 then (if isLeapYear y then 29 else 28)
  else if m = 4 ∨ m = 6 ∨ m = 9 ∨ m = 11 then 30
  else 31

/-- True when `s` is a non-empty all-digit string. -/
def allDigits (s : String) : Bool :=
  !s.isEmpty && s.toList.all Char.isDigit

/-- Value of an all-digit string. -/
def digitsNat (s : String) : Nat :=
  s.toList.foldl (fun n c => 10 * n + (c.toNat - 48)) 0

/-- Embedding of `datetime.strptime(s, "%Y-%m-%d").date()` succeeding: `%Y`
matches exactly four digits, `%m` and `%d` one or two digits, nothing may
remain after the match, and `datetime.date` validates the ranges (month 1-12,
day within the month length with leap years, year at least 1).  `none` models
`ValueError`. -/
def pyParseDate (s : String) : Option (Nat × Nat × Nat) :=
  match s.splitOn "-" with
  | [ys, ms, ds] =>
    if allDigits ys ∧ ys.length = 4 ∧ allDigits ms ∧ ms.length ≤ 2 ∧
        allDigits ds ∧ ds.length ≤ 2 then
      let y := digitsNat ys
      let m := digitsNat ms
      let d := digitsNat ds
      if 1 ≤ y ∧ 1 ≤ m ∧ m ≤ 12 ∧ 1 ≤ d ∧ d ≤ daysInMonth y m then some (y, m, d)
      else none
    else none
  | _ => none

/-! The `read_csv` loader. -/

/-- The six required column names checked by `read_csv` (case-sensitively). -/
def requiredColumns : List String :=
  ["firstname", "lastname", "date", "division", "points", "summary"]

/-- Index of the last occurrence of `k` in a list, if any.  `csv.DictReader`
builds the row dictionary with `dict(zip(fieldnames, row))` followed by a
fill loop for the fieldnames beyond the row length, so for a duplicated
header name the last occurrence decides the stored value. -/
def lastIdxOf (k : String) : List String → Option Nat
  | [] => none
  | c :: rest =>
    match lastIdxOf k rest with
    | some i => some (i + 1)
    | none => if c = k then some 0 else none

/-- The row dictionary lookup `row[k]` for a `csv.DictReader` row: `none`
when `k` is not a header field at all (a `KeyError` on lookup), `some none`
when the field exists but the data row is too short to supply its cell — in
that case `DictReader` stores its default `restval`, Python `None` — and
`some (some v)` for a present cell. -/
def rowDict (header cells : List String) (k : String) : Option (Option String) :=
  (lastIdxOf k header).map (fun i => cells[i]?)

/-- Outcome of one iteration of the row loop of `read_csv` (lines 51-69):
`ok` appends a record, `skip` is the `except ValueError` branch (warn and
continue), `fatal` is an exception the inner handler does not catch — a
`TypeError` from `int(None)` or `strptime(None, ...)` on a missing cell, or a
`KeyError` — which propagates to the outer `except Exception` handler. -/
inductive RowOutcome where
  | ok (r : Record)
  | skip
  | fatal
deriving DecidableEq

/-- One iteration of the row loop of `read_csv`: parse `division`, `points`
and the date in program order, the first failure deciding the outcome; on
success build the record from the row dictionary exactly as lines 57-66 do
(`date` stores the raw string `row["date"]`, not the parsed date). -/
def processRow (header cells : List String) : RowOutcome :=
  match rowDict header cells "division" with
  | none => .fatal
  | some none => .fatal
  | some (some divisionStr) =>
    match pyParseInt divisionStr with
    | none => .skip
    | some division =>
      match rowDict header cells "points" with
      | none => .fatal
      | some none => .fatal
      | some (some pointsStr) =>
        match pyParseInt pointsStr with
        | none => .skip
        | some points =>
          match rowDict header cells "date" with
          | none => .fatal
          | some none => .fatal
          | some (some dateStr) =>
            match pyParseDate dateStr with
            | none => .skip
            | some _ =>
              match rowDict header cells "firstname", rowDict header cells "lastname",
                  rowDict header cells "summary" with
              | some fn, some ln, some sm =>
                .ok ⟨fn, ln, dateStr, division, points, sm⟩
              | _, _, _ => .fatal

/-- The row loop of `read_csv` over all data rows: `csv.DictReader` silently
drops rows with no cells at all (blank lines); a `fatal` outcome aborts the
whole loop (`none`); otherwise the valid records and the skipped rows are
collected in order. -/
def processRows (header : List String) :
    List (List String) → Option (List Record × List (List String))
  | [] => some ([], [])
  | cells :: rest =>
    if cells.isEmpty then processRows header rest
    else
      match processRow header cells with
      | .fatal => none
      | .skip => (processRows header rest).map (fun p => (p.1, cells :: p.2))
      | .ok r => (processRows header rest).map (fun p => (r :: p.1, p.2))

/-- The input of `read_csv`: either the source cannot be opened or read (the
outer `except Exception` path of lines 73-76), or it provides a header line
and a list of data rows. -/
inductive CsvSource where
  | unreadable
  | content (header : List String) (rows : List (List String))

/-- Successful result of `read_csv`: the returned records plus the diagnostic
side channel — one warning per skipped row (line 69) and whether the warning
for an empty result was emitted (lines 70-71). -/
structure ReadOk where
  records : List Record
  skippedRows : List (List String)
  emptyWarned : Bool
deriving DecidableEq

/-- Embedding of `read_csv` (lines 17-76).  `Except.error 1` models
`sys.exit(1)`: on an unreadable source, on a missing required column (the
check `required_columns.issubset(reader.fieldnames)` is case-sensitive
membership), and on any uncaught exception in the row loop.  Otherwise the
records are returned together with the warnings channel. -/
def read_csv (src : CsvSource) : Except Nat ReadOk :=
  match src with
  | .unreadable => .error 1
  | .content header rows =>
    if requiredColumns.all (fun c => header.contains c) then
      match processRows header rows with
      | none => .error 1
      | some p => .ok ⟨p.1, p.2, p.1.isEmpty⟩
    else .error 1

/-! The renderers.  Both build the same `name`/`details` projection. -/

/-- Python f-string interpolation of a value that may be `None`: an f-string
renders `None` as the four letter text `None`. -/
def pyStr : Option String → String
  | none => "None"
  | some s => s

/-- The `name` field built by both formatters (lines 108 and 127):
`f"{record['firstname']} {record['lastname']}"`. -/
def mkName (r : Record) : String :=
  pyStr r.firstname ++ " " ++ pyStr r.lastname

/-- The `details` field built by both formatters (lines 109 and 128):
`f"In division {record['division']} from {record['date']} performing {record['summary']}"`. -/
def mkDetails (r : Record) : String :=
  "In division " ++ toString r.division ++ " from " ++ r.date ++
    " performing " ++ pyStr r.summary

/-- The `records` list both formatters build (lines 105-110 and 124-129): one
`(name, details)` pair appended per record, in input order; the pair models
the two-key dict with insertion order `name` before `details`. -/
def format_entries (records : List Record) : List (String × String) :=
  records.foldl (fun acc r => acc ++ [(mkName r, mkDetails r)]) []

/-- Lower-case hexadecimal digit, as used by the `json.dumps` escapes. -/
def toHexDigit (n : Nat) : Char :=
  if n < 10 then Char.ofNat (48 + n) else Char.ofNat (87 + n)

/-- Value of a hexadecimal digit character, either case. -/
def hexVal (c : Char) : Option Nat :=
  if 48 ≤ c.toNat ∧ c.toNat ≤ 57 then some (c.toNat - 48)
  else if 97 ≤ c.toNat ∧ c.toNat ≤ 102 then some (c.toNat - 87)
  else if 65 ≤ c.toNat ∧ c.toNat ≤ 70 then some (c.toNat - 55)
  else none

/-- Two lower-case hex digits. -/
def hex2 (n : Nat) : List Char :=
  [toHexDigit (n / 16 % 16), toHexDigit (n % 16)]

/-- Four lower-case hex digits. -/
def hex4 (n : Nat) : List Char :=
  [toHexDigit (n / 4096 % 16), toHexDigit (n / 256 % 16),
   toHexDigit (n / 16 % 16), toHexDigit (n % 16)]

/-- Eight lower-case hex digits. -/
def hex8 (n : Nat) : List Char :=
  hex4 (n / 65536) ++ hex4 (n % 65536)

/-- UTF-16 code units of a character, as `json.dumps` (with its default
`ensure_ascii=True`) escapes a non-ASCII character: one unit below `0x10000`,
a surrogate pair above. -/
def unitsOfChar (c : Char) : List Nat :=
  if c.toNat < 65536 then [c.toNat]
  else [55296 + (c.toNat - 65536) / 1024, 56320 + (c.toNat - 65536) % 1024]

/-- The escape `json.dumps` applies to one character inside a string literal:
the two-character escapes for quote, backslash and the control characters
b, t, n, f, r; printable ASCII kept literal; everything else (other control
characters and all non-ASCII) as `\uXXXX` code units. -/
def jsonEscapeChar (c : Char) : List Char :=
  if c = '"' then ['\\', '"']
  else if c = '\\' then ['\\', '\\']
  else if c = '\n' then ['\\', 'n']
  else if c = '\r' then ['\\', 'r']
  else if c = '\t' then ['\\', 't']
  else if c.toNat = 8 then ['\\', 'b']
  else if c.toNat = 12 then ['\\', 'f']
  else if 32 ≤ c.toNat ∧ c.toNat ≤ 126 then [c]
  else if c.toNat < 65536 then '\\' :: 'u' :: hex4 c.toNat
  else ('\\' :: 'u' :: hex4 (55296 + (c.toNat - 65536) / 1024)) ++
    ('\\' :: 'u' :: hex4 (56320 + (c.toNat - 65536) % 1024))

/-- The JSON string body `json.dumps` emits for `s` (without the enclosing
quotes). -/
def jsonEncodeString (s : String) : String :=
  String.mk (s.toList.foldr (fun c acc => jsonEscapeChar c ++ acc) [])

/-- Inverse of the two-character JSON escapes. -/
def jsonUnescape1 (c : Char) : Option Char :=
  if c = '"' then some '"'
  else if c = '\\' then some '\\'
  else if c = '/' then some '/'
  else if c = 'n' then some '\n'
  else if c = 'r' then some '\r'
  else if c = 't' then some '\t'
  else if c = 'b' then some (Char.ofNat 8)
  else if c = 'f' then some (Char.ofNat 12)
  else none

/-- Decode a JSON string body to its UTF-16 code units. -/
def jsonUnits : List Char → Option (List Nat)
  | [] => some []
  | c :: cs =>
    if c = '\\' then
      match cs with
      | 'u' :: a :: b :: d :: e :: cs2 =>
        match hexVal a, hexVal b, hexVal d, hexVal e with
        | some x, some y, some z, some w =>
          (jsonUnits cs2).map (fun t => (((x * 16 + y) * 16 + z) * 16 + w) :: t)
        | _, _, _, _ => none
      | e :: cs2 =>
        match jsonUnescape1 e with
        | some ch => (jsonUnits cs2).map (fun t => ch.toNat :: t)
        | none => none
      | [] => none
    else (jsonUnits cs).map (fun t => c.toNat :: t)

/-- Combine UTF-16 code units back into characters, pairing surrogates. -/
def combineUnits : List Nat → Option (List Char)
  | [] => some []
  | v :: rest =>
    if 55296 ≤ v ∧ v ≤ 56319 then
      match rest with
      | w :: rest2 =>
        if 56320 ≤ w ∧ w ≤ 57343 then
          (combineUnits rest2).map
            (fun t => Char.ofNat (65536 + (v - 55296) * 1024 + (w - 56320)) :: t)
        else none
      | [] => none
    else if 56320 ≤ v ∧ v ≤ 57343 then none
    else (combineUnits rest).map (fun t => Char.ofNat v :: t)

/-- Decode a JSON string body back to the text it denotes. -/
def jsonDecodeString (s : String) : Option String :=
  match jsonUnits s.toList with
  | none => none
  | some us =>
    match combineUnits us with
    | none => none
    | some cs => some (String.mk cs)

/-- One entry object as `json.dumps(output, indent=2)` lays it out at depth
two: keys in dict insertion order (`sort_keys` defaults to false there), a
two-space indent per nesting level, and the default separators, which become
`",\n"` plus indentation when an indent is given. -/
def jsonEntryStr (e : String × String) : String :=
  "    \x7b\n      \"name\": \"" ++ jsonEncodeString e.1 ++
    "\",\n      \"details\": \"" ++ jsonEncodeString e.2 ++ "\"\n    \x7d"

/-- Embedding of `format_to_json` (lines 114-130): build the entries, then
serialize the document as `json.dumps(output, indent=2)` does; an empty list
is rendered inline as `[]`. -/
def format_to_json (records : List Record) : String :=
  match format_entries records with
  | [] => "\x7b\n  \"records\": []\n\x7d"
  | es => "\x7b\n  \"records\": [\n" ++
      String.intercalate ",\n" (es.map jsonEntryStr) ++ "\n  ]\n\x7d"

/-! The YAML renderer.  The document construction (lines 105-110) is code of
`format_to_yaml`; the serializer `yaml.dump(output, sort_keys=False)` is
external PyYAML library code, modelled from the spec below. -/

/-- Strings that a YAML 1.1 resolver would read as a boolean or null, so a
plain scalar must not collide with them (case handled via lower-casing). -/
def yamlKeywords : List String :=
  ["true", "false", "yes", "no", "on", "off", "null", "y", "n"]

/-- Modelled from the spec: the emitter may write a scalar plain (unquoted)
only when that is unambiguous.  This conservative test requires a letter
first, then only alphanumerics, spaces and `-._/`, no trailing space, and no
collision with the boolean/null keywords. -/
def yamlPlainOk (s : String) : Bool :=
  !s.isEmpty &&
  s.toList.all
    (fun c => c.isAlphanum || c == ' ' || c == '-' || c == '.' || c == '_' || c == '/') &&
  (match s.toList.head? with
   | some c => c.isAlpha
   | none => false) &&
  (match s.toList.getLast? with
   | some c => decide (c ≠ ' ')
   | none => false) &&
  !(yamlKeywords.contains (String.mk (s.toList.map Char.toLower)))

/-- Modelled from the spec: the escapes of the YAML double-quoted style, the
one style that can hold arbitrary text: two-character escapes for quote,
backslash, newline and tab; printable ASCII literal; `\xXX`, `\uXXXX` and
`\UXXXXXXXX` for the rest by size. -/
def yamlEscapeChar (c : Char) : List Char :=
  if c = '"' then ['\\', '"']
  else if c = '\\' then ['\\', '\\']
  else if c = '\n' then ['\\', 'n']
  else if c = '\t' then ['\\', 't']
  else if 32 ≤ c.toNat ∧ c.toNat ≤ 126 then [c]
  else if c.toNat < 256 then '\\' :: 'x' :: hex2 c.toNat
  else if c.toNat < 65536 then '\\' :: 'u' :: hex4 c.toNat
  else '\\' :: 'U' :: hex8 c.toNat

/-- Modelled from the spec: scalar emission — plain when clearly safe,
double-quoted with escapes otherwise. -/
def yamlEncodeScalar (s : String) : String :=
  if yamlPlainOk s then s
  else String.mk ('"' :: s.toList.foldr (fun c acc => yamlEscapeChar c ++ acc) ['"'])

/-- Inverse of the two-character YAML escapes emitted above. -/
def yamlUnescape1 (c : Char) : Option Char :=
  if c = '"' then some '"'
  else if c = '\\' then some '\\'
  else if c = 'n' then some '\n'
  else if c = 't' then some '\t'
  else none

/-- Decode the body of a YAML double-quoted scalar. -/
def yamlDecodeChars : List Char → Option (List Char)
  | [] => some []
  | c :: cs =>
    if c = '\\' then
      match cs with
      | 'x' :: a :: b :: cs2 =>
        match hexVal a, hexVal b with
        | some x, some y => (yamlDecodeChars cs2).map (fun t => Char.ofNat (x * 16 + y) :: t)
        | _, _ => none
      | 'u' :: a :: b :: d :: e :: cs2 =>
        match hexVal a, hexVal b, hexVal d, hexVal e with
        | some x, some y, some z, some w =>
          (yamlDecodeChars cs2).map
            (fun t => Char.ofNat ((((x * 16 + y) * 16 + z) * 16 + w)) :: t)
        | _, _, _, _ => none
      | 'U' :: a :: b :: d :: e :: f :: g :: i :: j :: cs2 =>
        match hexVal a, hexVal b, hexVal d, hexVal e,
            hexVal f, hexVal g, hexVal i, hexVal j with
        | some x1, some x2, some x3, some x4, some x5, some x6, some x7, some x8 =>
          (yamlDecodeChars cs2).map
            (fun t => Char.ofNat
              ((((x1 * 16 + x2) * 16 + x3) * 16 + x4) * 65536 +
                (((x5 * 16 + x6) * 16 + x7) * 16 + x8)) :: t)
        | _, _, _, _, _, _, _, _ => none
      | e :: cs2 =>
        match yamlUnescape1 e with
        | some ch => (yamlDecodeChars cs2).map (fun t => ch :: t)
        | none => none
      | [] => none
    else (yamlDecodeChars cs).map (fun t => c :: t)

/-- Decode a YAML scalar as emitted above: a double-quoted body is unescaped,
a plain scalar denotes its own text. -/
def yamlDecodeScalar (s : String) : Option String :=
  match s.toList with
  | [] => some s
  | c :: rest =>
    if c = '"' then
      if rest.getLast? = some '"' then
        (yamlDecodeChars rest.dropLast).map (fun l => String.mk l)
      else none
    else some s

/-- Modelled from the spec: one block-sequence entry of notation A — the
first key on the `- ` line, the second aligned under it, `name` before
`details`. -/
def yamlEntryStr (e : String × String) : String :=
  "- name: " ++ yamlEncodeScalar e.1 ++ "\n  details: " ++ yamlEncodeScalar e.2 ++ "\n"

/-- Embedding of `format_to_yaml` (lines 95-111): build the entries, then
serialize the document in block style (spec notation A); an empty list value
is rendered inline as `[]`. -/
def format_to_yaml (records : List Record) : String :=
  match format_entries records with
  | [] => "records: []\n"
  | es => "records:\n" ++ String.join (es.map yamlEntryStr)

/-- The core of `main` (lines 172-199) after the interactive menu: read the
CSV, exit with status 1 when no valid record remains (lines 185-187),
otherwise rank and render in the chosen format.  The optional output-file
write of lines 203-213 is outside the returned document. -/
def mainFlow (src : CsvSource) (top_n : Int) (useJson : Bool) : Except Nat String :=
  match read_csv src with
  | .error code => .error code
  | .ok out =>
    if out.records.isEmpty then .error 1
    else .ok (if useJson then format_to_json (get_top_records out.records top_n)
      else format_to_yaml (get_top_records out.records top_n))

/-! Rigid parsers for the two emitted document layouts, used to check that
the documents parse back to the literal field values. -/

/-- Consume an expected literal prefix. -/
def dropLit : List Char → List Char → Option (List Char)
  | [], cs => some cs
  | l :: ls, c :: cs => if l = c then dropLit ls cs else none
  | _ :: _, [] => none

/-- Scan a JSON string body up to its closing quote, yielding the decoded
code units and the remainder. -/
def jsonScanUnits : List Char → Option (List Nat × List Char)
  | [] => none
  | c :: cs =>
    if c = '"' then some ([], cs)
    else if c = '\\' then
      match cs with
      | 'u' :: a :: b :: d :: e :: cs2 =>
        match hexVal a, hexVal b, hexVal d, hexVal e with
        | some x, some y, some z, some w =>
          (jsonScanUnits cs2).map (fun p => ((((x * 16 + y) * 16 + z) * 16 + w) :: p.1, p.2))
        | _, _, _, _ => none
      | e :: cs2 =>
        match jsonUnescape1 e with
        | some ch => (jsonScanUnits cs2).map (fun p => (ch.toNat :: p.1, p.2))
        | none => none
      | [] => none
    else (jsonScanUnits cs).map (fun p => (c.toNat :: p.1, p.2))

/-- Scan a quote-terminated JSON string and decode it. -/
def jsonScanString (cs : List Char) : Option (String × List Char) :=
  match jsonScanUnits cs with
  | none => none
  | some (us, rest) =>
    match combineUnits us with
    | none => none
    | some chars => some (String.mk chars, rest)

/-- Parse the entry objects of the layout emitted by `format_to_json`. -/
def parseJsonEntries : Nat → List Char → Option (List (String × String))
  | 0, _ => none
  | fuel + 1, cs =>
    match dropLit ("    \x7b\n      \"name\": \"".toList) cs with
    | none => none
    | some cs1 =>
      match jsonScanString cs1 with
      | none => none
      | some (nm, cs2) =>
        match dropLit (",\n      \"details\": \"".toList) cs2 with
        | none => none
        | some cs3 =>
          match jsonScanString cs3 with
          | none => none
          | some (dt, cs4) =>
            match dropLit ("\n    \x7d".toList) cs4 with
            | none => none
            | some cs5 =>
              match cs5 with
              | ',' :: '\n' :: cs6 =>
                (parseJsonEntries fuel cs6).map (fun es => (nm, dt) :: es)
              | _ =>
                match dropLit ("\n  ]\n\x7d".toList) cs5 with
                | some [] => some [(nm, dt)]
                | _ => none

/-- Parse a whole document of the layout emitted by `format_to_json` back to
its `(name, details)` pairs. -/
def parseJsonRecords (s : String) : Option (List (String × String)) :=
  match dropLit ("\x7b\n  \"records\": [".toList) s.toList with
  | none => none
  | some cs =>
    match cs with
    | ']' :: rest => if rest = "\n\x7d".toList then some [] else none
    | '\n' :: rest => parseJsonEntries (rest.length + 1) rest
    | _ => none

/-- Scan a quote-terminated YAML double-quoted body and decode it. -/
def yamlScanQuoted : List Char → Option (List Char × List Char)
  | [] => none
  | c :: cs =>
    if c = '"' then some ([], cs)
    else if c = '\\' then
      match cs with
      | 'x' :: a :: b :: cs2 =>
        match hexVal a, hexVal b with
        | some x, some y => (yamlScanQuoted cs2).map (fun p => (Char.ofNat (x * 16 + y) :: p.1, p.2))
        | _, _ => none
      | 'u' :: a :: b :: d :: e :: cs2 =>
        match hexVal a, hexVal b, hexVal d, hexVal e with
        | some x, some y, some z, some w =>
          (yamlScanQuoted cs2).map
            (fun p => (Char.ofNat ((((x * 16 + y) * 16 + z) * 16 + w)) :: p.1, p.2))
        | _, _, _, _ => none
      | 'U' :: a :: b :: d :: e :: f :: g :: i :: j :: cs2 =>
        match hexVal a, hexVal b, hexVal d, hexVal e,
            hexVal f, hexVal g, hexVal i, hexVal j with
        | some x1, some x2, some x3, some x4, some x5, some x6, some x7, some x8 =>
          (yamlScanQuoted cs2).map
            (fun p => (Char.ofNat
              ((((x1 * 16 + x2) * 16 + x3) * 16 + x4) * 65536 +
                (((x5 * 16 + x6) * 16 + x7) * 16 + x8)) :: p.1, p.2))
        | _, _, _, _, _, _, _, _ => none
      | e :: cs2 =>
        match yamlUnescape1 e with
        | some ch => (yamlScanQuoted cs2).map (fun p => (ch :: p.1, p.2))
        | none => none
      | [] => none
    else (yamlScanQuoted cs).map (fun p => (c :: p.1, p.2))

/-- Scan one YAML scalar as emitted above: double-quoted, or plain up to the
end of the line. -/
def yamlScanScalar (cs : List Char) : Option (String × List Char) :=
  match cs with
  | [] => some ("", [])
  | c :: rest =>
    if c = '"' then
      (yamlScanQuoted rest).map (fun p => (String.mk p.1, p.2))
    else
      let pl := cs.takeWhile (fun ch => decide (ch ≠ '\n'))
      some (String.mk pl, cs.drop pl.length)

/-- Parse the block-sequence entries of the layout emitted by
`format_to_yaml`. -/
def parseYamlEntries : Nat → List Char → Option (List (String × String))
  | 0, _ => none
  | fuel + 1, cs =>
    match dropLit ("- name: ".toList) cs with
    | none => none
    | some cs1 =>
      match yamlScanScalar cs1 with
      | none => none
      | some (nm, cs2) =>
        match dropLit ("\n  details: ".toList) cs2 with
        | none => none
        | some cs3 =>
          match yamlScanScalar cs3 with
          | none => none
          | some (dt, cs4) =>
            match cs4 with
            | ['\n'] => some [(nm, dt)]
            | '\n' :: cs5 => (parseYamlEntries fuel cs5).map (fun es => (nm, dt) :: es)
            | _ => none

/-- Parse a whole document of the layout emitted by `format_to_yaml` back to
its `(name, details)` pairs. -/
def parseYamlRecords (s : String) : Option (List (String × String)) :=
  if s = "records: []\n" then some []
  else
    match dropLit ("records:\n".toList) s.toList with
    | none => none
    | some cs => parseYamlEntries (cs.length + 1) cs

/-- A record whose text fields exercise the escaping rules: embedded double
quotes, backslashes, a newline, a colon, a tab, punctuation, an accented
letter, and an emoji beyond the basic multilingual plane. -/
def nastyRecord : Record :=
  ⟨some "Jo\"hn\\", some "O\nBri:en", "2023-12-31", -3, 1000000,
    some "did\t100% of \"tasks\", naïve 🎉"⟩

/-! Helper lemmas about the sort order. -/

theorem keyLe_of_sortKey_eq {a b : Record} (h : sortKey a = sortKey b) : keyLe a b := by
  unfold sortKey at h
  rw [Prod.mk.injEq] at h
  unfold keyLe
  omega

theorem sorted_specLe (rs : List Record) :
    (List.insertionSort keyLe rs).Pairwise specLe := by
  refine (List.sorted_insertionSort keyLe rs).imp ?_
  intro a b hab
  unfold keyLe at hab
  unfold specLe
  omega

theorem keyFilter_orderedInsert (k : Int × Int) (a : Record) (l : List Record) :
    keyFilter k (List.orderedInsert keyLe a l) =
      if sortKey a = k then a :: keyFilter k l else keyFilter k l := by
  induction l with
  | nil =>
    by_cases hk : sortKey a = k <;>
      simp [keyFilter, List.orderedInsert, List.filter_cons, hk]
  | cons b t ih =>
    rw [List.orderedInsert]
    by_cases hab : keyLe a b
    · rw [if_pos hab]
      by_cases hk : sortKey a = k <;>
        simp [keyFilter, List.filter_cons, hk]
    · rw [if_neg hab]
      by_cases hk : sortKey a = k
      · by_cases hbk : sortKey b = k
        · exact absurd (keyLe_of_sortKey_eq (hk.trans hbk.symm)) hab
        · simp only [keyFilter, List.filter_cons] at ih ⊢
          simp [hk, hbk] at ih ⊢
          exact ih
      · simp only [keyFilter, List.filter_cons] at ih ⊢
        by_cases hbk : sortKey b = k <;> simp [hk, hbk] at ih ⊢ <;> exact ih

theorem keyFilter_insertionSort (k : Int × Int) (rs : List Record) :
    keyFilter k (List.insertionSort keyLe rs) = keyFilter k rs := by
  induction rs with
  | nil => rfl
  | cons a t ih =>
    rw [List.insertionSort, keyFilter_orderedInsert, ih]
    by_cases hk : sortKey a = k <;> simp [keyFilter, List.filter_cons, hk]

theorem getTop_eq_take (rs : List Record) (n : Int) :
    ∃ m : Nat, get_top_records rs n = (List.insertionSort keyLe rs).take m := by
  unfold get_top_records pySliceTo
  by_cases h : 0 ≤ n
  · exact ⟨n.toNat, by rw [if_pos h]⟩
  · exact ⟨_, by rw [if_neg h]⟩

/-! Claim theorems for the ranker. -/

/-- C1: for every record sequence and every non-negative `top_n`,
`get_top_records` returns the first `top_n` elements of a permutation of the
input that is sorted ascending by division and, within equal division,
descending by points; in particular on the spec scenario input with
`top_n = 2` it returns `[(div=1,pts=90),(div=1,pts=80)]`. -/
theorem getTop_sorted_take_of_nonneg (rs : List Record) (n : Int) (h : 0 ≤ n) :
    (∃ s : List Record, s.Perm rs ∧ s.Pairwise specLe ∧
        get_top_records rs n = s.take n.toNat) ∧
      get_top_records sampleRecords 2 = [johnDoe, alexJohnson] := by
  constructor
  · refine ⟨List.insertionSort keyLe rs, List.perm_insertionSort keyLe rs,
      sorted_specLe rs, ?_⟩
    unfold get_top_records pySliceTo
    rw [if_pos h]
  · decide

/-- Witness for C1 at the spec scenario input. -/
theorem getTop_sorted_take_of_nonneg_witness :
    get_top_records sampleRecords 2 = [johnDoe, alexJohnson] :=
  (getTop_sorted_take_of_nonneg sampleRecords 2 (by decide)).2

/-- C3: ranking is stable.  For every key `k` the subsequence of key-`k`
records is unchanged by the sort; a pair `[r1, r2]` occurring in this order in
the input with equal sort keys still occurs in this order in the sorted
output; and after truncation the key-`k` subsequence of the output of
`get_top_records` is an initial segment of the key-`k` subsequence of the
input. -/
theorem getTop_stable (rs : List Record) (n : Int) (k : Int × Int) :
    keyFilter k (List.insertionSort keyLe rs) = keyFilter k rs ∧
      (∀ r1 r2 : Record, sortKey r1 = sortKey r2 → [r1, r2].Sublist rs →
        [r1, r2].Sublist (List.insertionSort keyLe rs)) ∧
      ∃ t : List Record, keyFilter k (get_top_records rs n) ++ t = keyFilter k rs := by
  refine ⟨keyFilter_insertionSort k rs, ?_, ?_⟩
  · intro r1 r2 hkey hsub
    exact List.pair_sublist_insertionSort (keyLe_of_sortKey_eq hkey) hsub
  · obtain ⟨m, hm⟩ := getTop_eq_take rs n
    refine ⟨keyFilter k ((List.insertionSort keyLe rs).drop m), ?_⟩
    rw [hm]
    unfold keyFilter
    rw [← List.filter_append, List.take_append_drop]
    exact keyFilter_insertionSort k rs

/-- C5: ranking is idempotent for non-negative `top_n`. -/
theorem getTop_idempotent (rs : List Record) (n : Int) (h : 0 ≤ n) :
    get_top_records (get_top_records rs n) n = get_top_records rs n := by
  have hsorted : List.Sorted keyLe (get_top_records rs n) := by
    unfold get_top_records pySliceTo
    rw [if_pos h]
    exact List.Pairwise.sublist (List.take_sublist _ _)
      (List.sorted_insertionSort keyLe rs)
  have hshort : (get_top_records rs n).length ≤ n.toNat := by
    unfold get_top_records pySliceTo
    rw [if_pos h]
    simp [List.length_take]
  generalize get_top_records rs n = o at hsorted hshort ⊢
  unfold get_top_records pySliceTo
  rw [hsorted.insertionSort_eq, if_pos h]
  exact List.take_of_length_le hshort

/-- Witness for C5 at the test suite input. -/
theorem getTop_idempotent_witness :
    get_top_records (get_top_records sampleRecords 2) 2 =
      get_top_records sampleRecords 2 :=
  getTop_idempotent sampleRecords 2 (by decide)

/-- C6: for `top_n` at least the input length, `get_top_records` returns a
fully sorted permutation of the whole input, of unchanged length, and on the
empty input it returns the empty sequence. -/
theorem getTop_all_of_ge_length (rs : List Record) (n : Int) (h : (rs.length : Int) ≤ n) :
    (get_top_records rs n).Perm rs ∧
      (get_top_records rs n).length = rs.length ∧
      (get_top_records rs n).Pairwise specLe ∧
      get_top_records [] n = [] := by
  have h0 : 0 ≤ n := le_trans (Int.natCast_nonneg rs.length) h
  have hlen : rs.length ≤ n.toNat := by omega
  have hout : get_top_records rs n = List.insertionSort keyLe rs := by
    unfold get_top_records pySliceTo
    rw [if_pos h0]
    apply List.take_of_length_le
    rw [List.length_insertionSort]
    exact hlen
  refine ⟨?_, ?_, ?_, ?_⟩
  · rw [hout]; exact List.perm_insertionSort keyLe rs
  · rw [hout, List.length_insertionSort]
  · rw [hout]; exact sorted_specLe rs
  · unfold get_top_records pySliceTo
    simp [List.insertionSort]

/-- Witness for C6 with `top_n = 4` on the four sample records. -/
theorem getTop_all_of_ge_length_witness :
    (get_top_records sampleRecords 4).Perm sampleRecords ∧
      (get_top_records sampleRecords 4).length = sampleRecords.length ∧
      (get_top_records sampleRecords 4).Pairwise specLe ∧
      get_top_records [] 4 = [] :=
  getTop_all_of_ge_length sampleRecords 4 (by decide)

/-- C10: for negative `top_n`, `get_top_records` raises no error and returns
the fully sorted sequence with its last `|top_n|` elements removed, the
Python negative slice semantics; the result is empty exactly when `|top_n|`
is at least the input length. -/
theorem getTop_negative_slice (rs : List Record) (n : Int) (h : n < 0) :
    ∃ s : List Record, s.Perm rs ∧ s.Pairwise specLe ∧
      get_top_records rs n = s.take (rs.length - (-n).toNat) ∧
      (get_top_records rs n = [] ↔ rs.length ≤ (-n).toNat) := by
  have hne : ¬0 ≤ n := by omega
  have htake : get_top_records rs n =
      (List.insertionSort keyLe rs).take (rs.length - (-n).toNat) := by
    unfold get_top_records pySliceTo
    rw [if_neg hne, List.length_insertionSort]
  refine ⟨List.insertionSort keyLe rs, List.perm_insertionSort keyLe rs,
    sorted_specLe rs, htake, ?_⟩
  rw [htake, List.take_eq_nil_iff]
  constructor
  · intro hc
    rcases hc with hc | hc
    · omega
    · have := congrArg List.length hc
      rw [List.length_insertionSort] at this
      simp only [List.length_nil] at this
      omega
  · intro hc
    left
    omega

/-- Witness for C10 at `top_n = -1` on the four sample records. -/
theorem getTop_negative_slice_witness :
    ∃ s : List Record, s.Perm sampleRecords ∧ s.Pairwise specLe ∧
      get_top_records sampleRecords (-1) =
        s.take (sampleRecords.length - (-(-1) : Int).toNat) ∧
      (get_top_records sampleRecords (-1) = [] ↔
        sampleRecords.length ≤ ((-(-1) : Int)).toNat) :=
  getTop_negative_slice sampleRecords (-1) (by decide)

/-! Helper lemmas about the loader. -/

theorem lastIdxOf_lt {k : String} : ∀ {l : List String} {i : Nat},
    lastIdxOf k l = some i → i < l.length := by
  intro l
  induction l with
  | nil => intro i h; simp [lastIdxOf] at h
  | cons c rest ih =>
    intro i h
    cases hrec : lastIdxOf k rest with
    | some j =>
      simp [lastIdxOf, hrec] at h
      have := ih hrec
      simp only [List.length_cons]
      omega
    | none =>
      by_cases hck : c = k
      · simp [lastIdxOf, hrec, hck] at h
        simp only [List.length_cons]
        omega
      · simp [lastIdxOf, hrec, hck] at h

theorem lastIdxOf_isSome {k : String} : ∀ {l : List String}, k ∈ l →
    ∃ i, lastIdxOf k l = some i := by
  intro l
  induction l with
  | nil => intro h; cases h
  | cons c rest ih =>
    intro h
    cases hrec : lastIdxOf k rest with
    | some j => exact ⟨j + 1, by simp [lastIdxOf, hrec]⟩
    | none =>
      have hck : c = k := by
        rcases List.mem_cons.mp h with h1 | h2
        · exact h1.symm
        · obtain ⟨j, hj⟩ := ih h2
          rw [hj] at hrec
          cases hrec
      exact ⟨0, by simp [lastIdxOf, hrec, hck]⟩

theorem rowDict_present {k : String} {header cells : List String}
    (hk : k ∈ header) (hlen : header.length ≤ cells.length) :
    ∃ v : String, rowDict header cells k = some (some v) := by
  obtain ⟨i, hi⟩ := lastIdxOf_isSome hk
  have hlt : i < cells.length := lt_of_lt_of_le (lastIdxOf_lt hi) hlen
  refine ⟨cells.get ⟨i, hlt⟩, ?_⟩
  unfold rowDict
  rw [hi]
  simp [List.getElem?_eq_getElem hlt]

theorem processRow_no_fatal {header cells : List String}
    (hcols : ∀ c ∈ requiredColumns, c ∈ header)
    (hlen : header.length ≤ cells.length) :
    processRow header cells ≠ RowOutcome.fatal := by
  obtain ⟨dv, hdv⟩ := rowDict_present (hcols "division" (by decide)) hlen
  obtain ⟨pv, hpv⟩ := rowDict_present (hcols "points" (by decide)) hlen
  obtain ⟨tv, htv⟩ := rowDict_present (hcols "date" (by decide)) hlen
  obtain ⟨fv, hfv⟩ := rowDict_present (hcols "firstname" (by decide)) hlen
  obtain ⟨lv, hlv⟩ := rowDict_present (hcols "lastname" (by decide)) hlen
  obtain ⟨sv, hsv⟩ := rowDict_present (hcols "summary" (by decide)) hlen
  simp only [processRow, hdv, hpv, htv, hfv, hlv, hsv]
  cases pyParseInt dv with
  | none => simp
  | some d =>
    cases pyParseInt pv with
    | none => simp
    | some p =>
      cases pyParseDate tv with
      | none => simp
      | some t => simp

theorem processRows_ok {header : List String} : ∀ {rows : List (List String)},
    (∀ r ∈ rows, r.isEmpty = false → processRow header r ≠ RowOutcome.fatal) →
    ∃ recs skipped, processRows header rows = some (recs, skipped) ∧
      (∀ r ∈ rows, r.isEmpty = false → processRow header r = RowOutcome.skip →
        r ∈ skipped) ∧
      recs.length + skipped.length + (rows.filter (fun r => r.isEmpty)).length =
        rows.length := by
  intro rows
  induction rows with
  | nil => intro _; exact ⟨[], [], rfl, by simp, by simp⟩
  | cons cells rest ih =>
    intro h
    obtain ⟨recs, skipped, heq, hskip, hcount⟩ :=
      ih (fun r hr => h r (List.mem_cons_of_mem _ hr))
    by_cases hemp : cells.isEmpty
    · refine ⟨recs, skipped, ?_, ?_, ?_⟩
      · simp only [processRows, hemp, if_true, heq]
      · intro r hr hre hsk
        rcases List.mem_cons.mp hr with h1 | h2
        · rw [h1] at hre; rw [hemp] at hre; cases hre
        · exact hskip r h2 hre hsk
      · simp [List.filter_cons, hemp]
        omega
    · have hemp' : cells.isEmpty = false := by
        cases hb : cells.isEmpty
        · rfl
        · exact absurd hb hemp
      cases hout : processRow header cells with
      | fatal => exact absurd hout (h cells (List.mem_cons_self _ _) hemp')
      | skip =>
        refine ⟨recs, cells :: skipped, ?_, ?_, ?_⟩
        · simp only [processRows, hemp', if_false, hout, heq, Option.map_some']
          rfl
        · intro r hr hre hsk
          rcases List.mem_cons.mp hr with h1 | h2
          · rw [h1]; exact List.mem_cons_self _ _
          · exact List.mem_cons_of_mem _ (hskip r h2 hre hsk)
        · simp [List.filter_cons, hemp']
          omega
      | ok r =>
        refine ⟨r :: recs, skipped, ?_, ?_, ?_⟩
        · simp only [processRows, hemp', if_false, hout, heq, Option.map_some']
          rfl
        · intro r2 hr hre hsk
          rcases List.mem_cons.mp hr with h1 | h2
          · rw [h1] at hsk; rw [hout] at hsk; cases hsk
          · exact hskip r2 h2 hre hsk
        · simp [List.filter_cons, hemp']
          omega

/-! Claim theorems for the loader. -/

/-- C7: `read_csv` terminates the process with a non-zero exit status when
the input source cannot be opened or read, and likewise whenever one of the
six required columns is absent from the CSV header, the membership check
being case-sensitive. -/
theorem read_csv_fatal_inputs (header : List String) (rows : List (List String))
    (c : String) (hc : c ∈ requiredColumns) (hmiss : c ∉ header) :
    read_csv .unreadable = .error 1 ∧
      read_csv (.content header rows) = .error 1 := by
  refine ⟨rfl, ?_⟩
  simp only [read_csv]
  rw [if_neg]
  intro hall
  rw [List.all_eq_true] at hall
  have hcon := hall c hc
  rw [List.contains_eq_any_beq, List.any_eq_true] at hcon
  obtain ⟨x, hx, hbeq⟩ := hcon
  exact hmiss ((eq_of_beq hbeq) ▸ hx)

/-- Witness for C7: an unreadable source, and a header whose `Points` column
does not match the required lowercase `points`. -/
theorem read_csv_fatal_inputs_witness :
    read_csv .unreadable = .error 1 ∧
      read_csv (.content
        ["firstname", "lastname", "date", "division", "Points", "summary"]
        [["John", "Doe", "2023-05-05", "1", "90", "Task A"]]) = .error 1 :=
  read_csv_fatal_inputs _ _ "points" (by decide) (by decide)

/-- C2 counterexample: in a header-complete CSV the data row `["John"]`
supplies one cell only, so the `division` cell is missing and the row loop
computes `int(None)`; the resulting `TypeError` is not caught by the per-row
`except ValueError` handler, and `read_csv` terminates the process with exit
status 1 instead of skipping this malformed row. -/
theorem read_csv_short_row_terminates :
    read_csv (.content requiredColumns [["John"]]) = .error 1 := by
  rfl

/-- C2 amended: for a readable, header-complete CSV whose data rows each
supply a cell for every header column, a row failing integer parsing of
division or points, or date parsing, is skipped with a warning while
processing continues: `read_csv` returns without terminating, every skipped
row appears on the warning channel, and every row is accounted for as a
record, a skipped row, or a blank row.  (Rows shorter than the header are
excluded: they terminate the process, see
`read_csv_short_row_terminates`.) -/
theorem read_csv_skips_bad_rows (header : List String) (rows : List (List String))
    (hcols : ∀ c ∈ requiredColumns, c ∈ header)
    (hfull : ∀ r ∈ rows, r.isEmpty = false → header.length ≤ r.length) :
    ∃ out : ReadOk, read_csv (.content header rows) = .ok out ∧
      (∀ r ∈ rows, r.isEmpty = false → processRow header r = RowOutcome.skip →
        r ∈ out.skippedRows) ∧
      out.records.length + out.skippedRows.length +
        (rows.filter (fun r => r.isEmpty)).length = rows.length := by
  have hnf : ∀ r ∈ rows, r.isEmpty = false → processRow header r ≠ RowOutcome.fatal :=
    fun r hr hemp => processRow_no_fatal hcols (hfull r hr hemp)
  obtain ⟨recs, skipped, heq, hskip, hcount⟩ := processRows_ok hnf
  refine ⟨⟨recs, skipped, recs.isEmpty⟩, ?_, hskip, hcount⟩
  simp only [read_csv]
  rw [if_pos, heq]
  · rw [List.all_eq_true]
    intro c hc
    rw [List.contains_eq_any_beq, List.any_eq_true]
    exact ⟨c, hcols c hc, by simp⟩

/-- Witness for C2 (amended) on a two-row input: a valid row and a row whose
division cell is not an integer. -/
theorem read_csv_skips_bad_rows_witness :
    ∃ out : ReadOk, read_csv (.content requiredColumns
        [["John", "Doe", "2023-05-05", "1", "90", "Task A"],
         ["Bad", "Row", "2023-06-06", "invalid_division", "70", "Task X"]]) = .ok out ∧
      (∀ r ∈ [["John", "Doe", "2023-05-05", "1", "90", "Task A"],
         ["Bad", "Row", "2023-06-06", "invalid_division", "70", "Task X"]],
        r.isEmpty = false → processRow requiredColumns r = RowOutcome.skip →
        r ∈ out.skippedRows) ∧
      out.records.length + out.skippedRows.length +
        (([["John", "Doe", "2023-05-05", "1", "90", "Task A"],
           ["Bad", "Row", "2023-06-06", "invalid_division", "70", "Task X"]]).filter
          (fun r => r.isEmpty)).length =
        ([["John", "Doe", "2023-05-05", "1", "90", "Task A"],
          ["Bad", "Row", "2023-06-06", "invalid_division", "70", "Task X"]]).length :=
  read_csv_skips_bad_rows requiredColumns _ (by decide) (by decide)

/-! Helper lemmas for the escaping round trips. -/

theorem foldr_enc_append {α β : Type} (f : β → List α) (cs : List β) (tail : List α) :
    cs.foldr (fun c acc => f c ++ acc) tail =
      cs.foldr (fun c acc => f c ++ acc) [] ++ tail := by
  induction cs with
  | nil => simp
  | cons c rest ih => simp [ih]

theorem hexVal_toHexDigit : ∀ n, n < 16 → hexVal (toHexDigit n) = some n := by
  decide

theorem charValidNat (c : Char) :
    c.toNat < 55296 ∨ (57343 < c.toNat ∧ c.toNat < 1114112) :=
  c.valid

theorem jsonUnits_uescape (v : Nat) (hv : v < 65536) (cs : List Char) :
    jsonUnits ('\\' :: 'u' :: (hex4 v ++ cs)) = (jsonUnits cs).map (fun t => v :: t) := by
  have h1 := hexVal_toHexDigit (v / 4096 % 16) (Nat.mod_lt _ (by norm_num))
  have h2 := hexVal_toHexDigit (v / 256 % 16) (Nat.mod_lt _ (by norm_num))
  have h3 := hexVal_toHexDigit (v / 16 % 16) (Nat.mod_lt _ (by norm_num))
  have h4 := hexVal_toHexDigit (v % 16) (Nat.mod_lt _ (by norm_num))
  have hv' : ((v / 4096 % 16 * 16 + v / 256 % 16) * 16 + v / 16 % 16) * 16 + v % 16 = v := by
    omega
  simp only [hex4, List.cons_append, List.nil_append, jsonUnits, h1, h2, h3, h4, hv']
  simp

theorem jsonUnits_escapeChar (c : Char) (cs : List Char) :
    jsonUnits (jsonEscapeChar c ++ cs) =
      (jsonUnits cs).map (fun t => unitsOfChar c ++ t) := by
  by_cases h1 : c = '"'
  · subst h1; rfl
  by_cases h2 : c = '\\'
  · subst h2; rfl
  by_cases h3 : c = '\n'
  · subst h3; rfl
  by_cases h4 : c = '\r'
  · subst h4; rfl
  by_cases h5 : c = '\t'
  · subst h5; rfl
  by_cases h6 : c.toNat = 8
  · have hc : c = Char.ofNat 8 := by
      rw [← h6, Char.ofNat_toNat]
    subst hc; rfl
  by_cases h7 : c.toNat = 12
  · have hc : c = Char.ofNat 12 := by
      rw [← h7, Char.ofNat_toNat]
    subst hc; rfl
  by_cases h8 : 32 ≤ c.toNat ∧ c.toNat ≤ 126
  · have e : jsonEscapeChar c = [c] := by
      unfold jsonEscapeChar
      rw [if_neg h1, if_neg h2, if_neg h3, if_neg h4, if_neg h5, if_neg h6,
        if_neg h7, if_pos h8]
    have hlt : c.toNat < 65536 := by omega
    have u : unitsOfChar c = [c.toNat] := by
      unfold unitsOfChar
      rw [if_pos hlt]
    have d : jsonUnits (c :: cs) = (jsonUnits cs).map (fun t => c.toNat :: t) := by
      rw [jsonUnits.eq_def]
      simp only [h2, if_false]
    rw [e, List.singleton_append, d]
    simp only [u]
    rfl
  by_cases h9 : c.toNat < 65536
  · have e : jsonEscapeChar c = '\\' :: 'u' :: hex4 c.toNat := by
      unfold jsonEscapeChar
      rw [if_neg h1, if_neg h2, if_neg h3, if_neg h4, if_neg h5, if_neg h6,
        if_neg h7, if_neg h8, if_pos h9]
    have u : unitsOfChar c = [c.toNat] := by
      unfold unitsOfChar
      rw [if_pos h9]
    rw [e]
    simp only [List.cons_append]
    rw [jsonUnits_uescape c.toNat h9 cs]
    simp only [u]
    rfl
  · have hge : 65536 ≤ c.toNat := by omega
    have hlt : c.toNat < 1114112 := by
      rcases charValidNat c with hv | hv
      · omega
      · exact hv.2
    have e : jsonEscapeChar c =
        ('\\' :: 'u' :: hex4 (55296 + (c.toNat - 65536) / 1024)) ++
          ('\\' :: 'u' :: hex4 (56320 + (c.toNat - 65536) % 1024)) := by
      unfold jsonEscapeChar
      rw [if_neg h1, if_neg h2, if_neg h3, if_neg h4, if_neg h5, if_neg h6,
        if_neg h7, if_neg h8, if_neg h9]
    have u : unitsOfChar c =
        [55296 + (c.toNat - 65536) / 1024, 56320 + (c.toNat - 65536) % 1024] := by
      unfold unitsOfChar
      rw [if_neg h9]
    rw [e]
    simp only [List.cons_append, List.append_assoc]
    rw [jsonUnits_uescape _ (by omega) _, jsonUnits_uescape _ (by omega) _,
      Option.map_map]
    simp only [u]
    rfl

theorem combineUnits_unitsOfChar (c : Char) (rest : List Nat) :
    combineUnits (unitsOfChar c ++ rest) = (combineUnits rest).map (fun t => c :: t) := by
  have hval := charValidNat c
  by_cases h : c.toNat < 65536
  · have u : unitsOfChar c = [c.toNat] := by
      unfold unitsOfChar
      rw [if_pos h]
    have hnot1 : ¬(55296 ≤ c.toNat ∧ c.toNat ≤ 56319) := by omega
    have hnot2 : ¬(56320 ≤ c.toNat ∧ c.toNat ≤ 57343) := by omega
    rw [u, List.singleton_append]
    cases rest with
    | nil =>
      simp only [combineUnits]
      rw [if_neg hnot1, if_neg hnot2]
      simp [Char.ofNat_toNat]
    | cons w rest2 =>
      simp only [combineUnits]
      rw [if_neg hnot1, if_neg hnot2]
      simp [Char.ofNat_toNat]
  · have hlt : c.toNat < 1114112 := by
      rcases hval with hv | hv
      · omega
      · exact hv.2
    have u : unitsOfChar c =
        [55296 + (c.toNat - 65536) / 1024, 56320 + (c.toNat - 65536) % 1024] := by
      unfold unitsOfChar
      rw [if_neg h]
    have hp1 : 55296 ≤ 55296 + (c.toNat - 65536) / 1024 ∧
        55296 + (c.toNat - 65536) / 1024 ≤ 56319 := by omega
    have hp2 : 56320 ≤ 56320 + (c.toNat - 65536) % 1024 ∧
        56320 + (c.toNat - 65536) % 1024 ≤ 57343 := by omega
    have hv2 : 65536 + (55296 + (c.toNat - 65536) / 1024 - 55296) * 1024 +
        (56320 + (c.toNat - 65536) % 1024 - 56320) = c.toNat := by omega
    rw [u]
    simp only [List.cons_append, List.nil_append, combineUnits]
    rw [if_pos hp1, if_pos hp2]
    simp only [hv2, Char.ofNat_toNat]
    rfl

theorem jsonUnits_encodeList (cs : List Char) (tail : List Char) :
    jsonUnits (cs.foldr (fun c acc => jsonEscapeChar c ++ acc) tail) =
      (jsonUnits tail).map
        (fun t => cs.foldr (fun c acc => unitsOfChar c ++ acc) [] ++ t) := by
  induction cs with
  | nil => simp
  | cons c rest ih =>
    simp only [List.foldr_cons]
    rw [jsonUnits_escapeChar, ih, Option.map_map]
    congr 1
    funext t
    simp [Function.comp, List.append_assoc]

theorem combineUnits_encodeList (cs : List Char) :
    combineUnits (cs.foldr (fun c acc => unitsOfChar c ++ acc) []) = some cs := by
  induction cs with
  | nil => rfl
  | cons c rest ih =>
    simp only [List.foldr_cons]
    rw [combineUnits_unitsOfChar, ih]
    rfl

theorem json_roundtrip (s : String) :
    jsonDecodeString (jsonEncodeString s) = some s := by
  unfold jsonDecodeString jsonEncodeString
  rw [show (String.mk (s.toList.foldr (fun c acc => jsonEscapeChar c ++ acc) [])).toList =
    s.toList.foldr (fun c acc => jsonEscapeChar c ++ acc) [] from rfl]
  rw [jsonUnits_encodeList]
  simp only [jsonUnits, Option.map_some', List.append_nil]
  rw [combineUnits_encodeList]
  rfl

theorem yamlDecode_xescape (v : Nat) (hv : v < 256) (cs : List Char) :
    yamlDecodeChars ('\\' :: 'x' :: (hex2 v ++ cs)) =
      (yamlDecodeChars cs).map (fun t => Char.ofNat v :: t) := by
  have h1 := hexVal_toHexDigit (v / 16 % 16) (Nat.mod_lt _ (by norm_num))
  have h2 := hexVal_toHexDigit (v % 16) (Nat.mod_lt _ (by norm_num))
  have hv' : v / 16 % 16 * 16 + v % 16 = v := by omega
  simp only [hex2, List.cons_append, List.nil_append, yamlDecodeChars, h1, h2, hv']
  simp

theorem yamlDecode_uescape (v : Nat) (hv : v < 65536) (cs : List Char) :
    yamlDecodeChars ('\\' :: 'u' :: (hex4 v ++ cs)) =
      (yamlDecodeChars cs).map (fun t => Char.ofNat v :: t) := by
  have h1 := hexVal_toHexDigit (v / 4096 % 16) (Nat.mod_lt _ (by norm_num))
  have h2 := hexVal_toHexDigit (v / 256 % 16) (Nat.mod_lt _ (by norm_num))
  have h3 := hexVal_toHexDigit (v / 16 % 16) (Nat.mod_lt _ (by norm_num))
  have h4 := hexVal_toHexDigit (v % 16) (Nat.mod_lt _ (by norm_num))
  have hv' : ((v / 4096 % 16 * 16 + v / 256 % 16) * 16 + v / 16 % 16) * 16 + v % 16 = v := by
    omega
  simp only [hex4, List.cons_append, List.nil_append, yamlDecodeChars, h1, h2, h3, h4, hv']
  simp

theorem yamlDecode_Uescape (v : Nat) (hv : v < 4294967296) (cs : List Char) :
    yamlDecodeChars ('\\' :: 'U' :: (hex8 v ++ cs)) =
      (yamlDecodeChars cs).map (fun t => Char.ofNat v :: t) := by
  have h1 := hexVal_toHexDigit (v / 65536 / 4096 % 16) (Nat.mod_lt _ (by norm_num))
  have h2 := hexVal_toHexDigit (v / 65536 / 256 % 16) (Nat.mod_lt _ (by norm_num))
  have h3 := hexVal_toHexDigit (v / 65536 / 16 % 16) (Nat.mod_lt _ (by norm_num))
  have h4 := hexVal_toHexDigit (v / 65536 % 16) (Nat.mod_lt _ (by norm_num))
  have h5 := hexVal_toHexDigit (v % 65536 / 4096 % 16) (Nat.mod_lt _ (by norm_num))
  have h6 := hexVal_toHexDigit (v % 65536 / 256 % 16) (Nat.mod_lt _ (by norm_num))
  have h7 := hexVal_toHexDigit (v % 65536 / 16 % 16) (Nat.mod_lt _ (by norm_num))
  have h8 := hexVal_toHexDigit (v % 65536 % 16) (Nat.mod_lt _ (by norm_num))
  have hv' : (((v / 65536 / 4096 % 16 * 16 + v / 65536 / 256 % 16) * 16 +
      v / 65536 / 16 % 16) * 16 + v / 65536 % 16) * 65536 +
      (((v % 65536 / 4096 % 16 * 16 + v % 65536 / 256 % 16) * 16 +
      v % 65536 / 16 % 16) * 16 + v % 65536 % 16) = v := by omega
  simp only [hex8, hex4, List.cons_append, List.nil_append, yamlDecodeChars,
    h1, h2, h3, h4, h5, h6, h7, h8, hv']
  simp

theorem yamlDecodeChars_escapeChar (c : Char) (cs : List Char) :
    yamlDecodeChars (yamlEscapeChar c ++ cs) =
      (yamlDecodeChars cs).map (fun t => c :: t) := by
  by_cases h1 : c = '"'
  · subst h1; rfl
  by_cases h2 : c = '\\'
  · subst h2; rfl
  by_cases h3 : c = '\n'
  · subst h3; rfl
  by_cases h4 : c = '\t'
  · subst h4; rfl
  by_cases h5 : 32 ≤ c.toNat ∧ c.toNat ≤ 126
  · have e : yamlEscapeChar c = [c] := by
      unfold yamlEscapeChar
      rw [if_neg h1, if_neg h2, if_neg h3, if_neg h4, if_pos h5]
    have d : yamlDecodeChars (c :: cs) = (yamlDecodeChars cs).map (fun t => c :: t) := by
      rw [yamlDecodeChars.eq_def]
      simp only [h2, if_false]
    rw [e, List.singleton_append, d]
  by_cases h6 : c.toNat < 256
  · have e : yamlEscapeChar c = '\\' :: 'x' :: hex2 c.toNat := by
      unfold yamlEscapeChar
      rw [if_neg h1, if_neg h2, if_neg h3, if_neg h4, if_neg h5, if_pos h6]
    rw [e]
    simp only [List.cons_append]
    rw [yamlDecode_xescape c.toNat h6 cs]
    simp only [Char.ofNat_toNat]
  by_cases h7 : c.toNat < 65536
  · have e : yamlEscapeChar c = '\\' :: 'u' :: hex4 c.toNat := by
      unfold yamlEscapeChar
      rw [if_neg h1, if_neg h2, if_neg h3, if_neg h4, if_neg h5, if_neg h6, if_pos h7]
    rw [e]
    simp only [List.cons_append]
    rw [yamlDecode_uescape c.toNat h7 cs]
    simp only [Char.ofNat_toNat]
  · have hlt : c.toNat < 1114112 := by
      rcases charValidNat c with hv | hv
      · omega
      · exact hv.2
    have e : yamlEscapeChar c = '\\' :: 'U' :: hex8 c.toNat := by
      unfold yamlEscapeChar
      rw [if_neg h1, if_neg h2, if_neg h3, if_neg h4, if_neg h5, if_neg h6, if_neg h7]
    rw [e]
    simp only [List.cons_append]
    rw [yamlDecode_Uescape c.toNat (by omega) cs]
    simp only [Char.ofNat_toNat]

theorem yamlDecodeChars_encodeList (cs : List Char) :
    yamlDecodeChars (cs.foldr (fun c acc => yamlEscapeChar c ++ acc) []) = some cs := by
  induction cs with
  | nil => rfl
  | cons c rest ih =>
    simp only [List.foldr_cons]
    rw [yamlDecodeChars_escapeChar, ih]
    rfl

theorem yamlDecodeScalar_quoted (X : List Char) (hX : X.getLast? = some '"') :
    yamlDecodeScalar (String.mk ('"' :: X)) =
      (yamlDecodeChars X.dropLast).map (fun l => String.mk l) := by
  rw [yamlDecodeScalar.eq_def]
  rw [show (String.mk ('"' :: X)).toList = '"' :: X from rfl]
  simp only [hX, if_true]

theorem yaml_roundtrip (s : String) :
    yamlDecodeScalar (yamlEncodeScalar s) = some s := by
  unfold yamlEncodeScalar
  by_cases hp : yamlPlainOk s
  · rw [if_pos hp]
    rw [yamlDecodeScalar.eq_def]
    cases hs : s.toList with
    | nil => rfl
    | cons c rest =>
      have hca : c.isAlpha = true := by
        unfold yamlPlainOk at hp
        simp only [Bool.and_eq_true] at hp
        have hh := hp.1.1.2
        rw [hs] at hh
        simpa using hh
      have hq : ¬(c = '"') := by
        intro he
        rw [he] at hca
        exact absurd hca (by decide)
      simp only [hq, if_false]
  · rw [if_neg hp]
    rw [foldr_enc_append]
    rw [yamlDecodeScalar_quoted _ (List.getLast?_concat _)]
    rw [List.dropLast_concat, yamlDecodeChars_encodeList]
    rfl

/-! Claim theorems for the renderers and the top-level flow. -/

theorem foldl_entries (l : List Record) (acc : List (String × String)) :
    l.foldl (fun acc r => acc ++ [(mkName r, mkDetails r)]) acc =
      acc ++ l.map (fun r => (mkName r, mkDetails r)) := by
  induction l generalizing acc with
  | nil => simp
  | cons r t ih => simp [ih]

/-- C4: both formatters emit a document with a single `records` list holding,
in input order, exactly one entry per input record, the entry being the
`"<firstname> <lastname>"` name and the
`"In division <division> from <date> performing <summary>"` details with the
keys in the order `name` then `details` (no serializer key sorting); JSON
output is indented by exactly two spaces per level.  The concrete layouts are
checked literally on the spec scenario record and on the empty input. -/
theorem renderer_structure (rs : List Record) :
    format_entries rs = rs.map (fun r => (mkName r, mkDetails r)) ∧
      format_to_yaml [johnDoe] =
        "records:\n- name: John Doe\n  details: In division 1 from 2023-05-05 performing Task A\n" ∧
      format_to_json [johnDoe] =
        "\x7b\n  \"records\": [\n    \x7b\n      \"name\": \"John Doe\",\n      \"details\": \"In division 1 from 2023-05-05 performing Task A\"\n    \x7d\n  ]\n\x7d" ∧
      format_to_yaml [] = "records: []\n" ∧
      format_to_json [] = "\x7b\n  \"records\": []\n\x7d" := by
  refine ⟨?_, by decide, by decide, rfl, rfl⟩
  have h := foldl_entries rs []
  rw [List.nil_append] at h
  exact h

theorem processRows_all_skip {header : List String} : ∀ {rows : List (List String)},
    (∀ r ∈ rows, processRow header r = RowOutcome.skip ∧ r.isEmpty = false) →
    processRows header rows = some ([], rows) := by
  intro rows
  induction rows with
  | nil => intro _; rfl
  | cons cells rest ih =>
    intro h
    obtain ⟨hskip, hemp⟩ := h cells (List.mem_cons_self _ _)
    have hrest := ih (fun r hr => h r (List.mem_cons_of_mem _ hr))
    simp only [processRows, hemp, Bool.false_eq_true, if_false, hskip, hrest,
      Option.map_some']

/-- C8: on a readable, header-complete CSV all of whose data rows fail the
per-row validation, `read_csv` itself returns the empty record list — with
the empty-result warning emitted and every bad row on the warning channel,
but no termination — while the top-level flow treats the empty record set as
fatal and exits with status 1: the loader is warn-only, the caller is
fatal-on-empty. -/
theorem loader_warns_caller_exits (header : List String) (rows : List (List String))
    (top_n : Int) (useJson : Bool)
    (hcols : ∀ c ∈ requiredColumns, c ∈ header)
    (hbad : ∀ r ∈ rows, processRow header r = RowOutcome.skip ∧ r.isEmpty = false) :
    read_csv (.content header rows) = .ok ⟨[], rows, true⟩ ∧
      mainFlow (.content header rows) top_n useJson = .error 1 := by
  have hrows := processRows_all_skip hbad
  have hread : read_csv (.content header rows) = .ok ⟨[], rows, true⟩ := by
    simp only [read_csv]
    rw [if_pos, hrows]
    · rfl
    · rw [List.all_eq_true]
      intro c hc
      rw [List.contains_eq_any_beq, List.any_eq_true]
      exact ⟨c, hcols c hc, by simp⟩
  refine ⟨hread, ?_⟩
  simp only [mainFlow, hread]
  rfl

/-- Witness for C8 on a one-row input whose division cell is not an
integer. -/
theorem loader_warns_caller_exits_witness :
    read_csv (.content requiredColumns
      [["Bad", "Row", "2023-06-06", "invalid_division", "70", "Task X"]]) =
        .ok ⟨[], [["Bad", "Row", "2023-06-06", "invalid_division", "70", "Task X"]], true⟩ ∧
      mainFlow (.content requiredColumns
        [["Bad", "Row", "2023-06-06", "invalid_division", "70", "Task X"]]) 3 false =
        .error 1 :=
  loader_warns_caller_exits requiredColumns _ 3 false (by decide) (by decide)

set_option maxRecDepth 100000 in
/-- C9: the renderers escape text safely per their notation rules.  For every
record, decoding the encoded name and details scalars of either notation
recovers the literal text unchanged; moreover, whole emitted documents parse
back to the exact name/details pairs on an input exercising embedded quotes,
backslashes, control characters, non-ASCII text and an astral-plane
character. -/
theorem renderer_roundtrip (r : Record) :
    jsonDecodeString (jsonEncodeString (mkName r)) = some (mkName r) ∧
      jsonDecodeString (jsonEncodeString (mkDetails r)) = some (mkDetails r) ∧
      yamlDecodeScalar (yamlEncodeScalar (mkName r)) = some (mkName r) ∧
      yamlDecodeScalar (yamlEncodeScalar (mkDetails r)) = some (mkDetails r) ∧
      parseJsonRecords (format_to_json [nastyRecord, johnDoe]) =
        some [(mkName nastyRecord, mkDetails nastyRecord),
          (mkName johnDoe, mkDetails johnDoe)] ∧
      parseYamlRecords (format_to_yaml [nastyRecord, johnDoe]) =
        some [(mkName nastyRecord, mkDetails nastyRecord),
          (mkName johnDoe, mkDetails johnDoe)] :=
  ⟨json_roundtrip (mkName r), json_roundtrip (mkDetails r),
    yaml_roundtrip (mkName r), yaml_roundtrip (mkDetails r),
    by decide, by decide⟩
